import Mathlib

/-!
Shallow embedding of the Dice_Game repository (src/dice_game.js, src/unnamed/part_000).

The game drives a commit-reveal fair-randomness protocol:
  * `secureRandomInt` – rejection-sampling over 32-bit draws (dice_game.js lines 33-41);
  * `fairRandom` – the full exchange: commit a secret, validate the counterparty's
    input, combine `(secret + userNum) % max` (lines 47-69);
  * `compareDice` – pairwise comparison over the 36 ordered face pairs (lines 71-82);
  * startup dice-configuration validation (lines 7-22).

Node's crypto primitives are modelled as follows: the stream of bytes produced by
`crypto.randomBytes(4).readUInt32BE(0)` becomes an explicit list of 32-bit draws;
`crypto.createHmac('sha3-256', key)` is an external deterministic library function and
is carried as an explicit function argument `hmacSha3`; user lines read by `readline`
become an explicit list of `parseInt` results.
-/

namespace DiceGame

/-- Constant `0xFFFFFFFF`, used in the rejection test of `secureRandomInt`. -/
def UINT32_MAX : Nat := 4294967295

/-- Number of distinct 32-bit values readUInt32BE can produce. -/
def numDraws : Nat := 4294967296

/-- The acceptance cutoff of `secureRandomInt`:
`0xFFFFFFFF - (0xFFFFFFFF % max)` (dice_game.js line 36). -/
def cutoff (max : Nat) : Nat := UINT32_MAX - UINT32_MAX % max

/-- One iteration of the `secureRandomInt` loop on draw `num`:
accept (returning `num % max`) exactly when `num < cutoff max`, else retry. -/
def secureRandomIntStep (max num : Nat) : Option Nat :=
  if num < cutoff max then some (num % max) else none

/-- The `secureRandomInt(max)` loop run against an explicit list of successive 32-bit draws;
`none` models exhausting the supplied randomness (the JS loop would keep drawing). -/
def secureRandomInt (max : Nat) : List Nat → Option Nat
  | [] => none
  | num :: rest =>
    match secureRandomIntStep max num with
    | some r => some r
    | none => secureRandomInt max rest

/-- JS `parseInt(s, 10)` on an already-trimmed string: optional sign followed by the
longest prefix of decimal digits; `none` models `NaN` (no leading digit). -/
def parseIntCore (cs : List Char) : Option Int :=
  match cs with
  | '-' :: rest =>
    let ds := rest.takeWhile Char.isDigit
    if ds.isEmpty then none
    else some (-(ds.foldl (fun acc c => acc * 10 + (c.toNat - 48)) 0 : Nat))
  | '+' :: rest =>
    let ds := rest.takeWhile Char.isDigit
    if ds.isEmpty then none
    else some ((ds.foldl (fun acc c => acc * 10 + (c.toNat - 48)) 0 : Nat))
  | _ =>
    let ds := cs.takeWhile Char.isDigit
    if ds.isEmpty then none
    else some ((ds.foldl (fun acc c => acc * 10 + (c.toNat - 48)) 0 : Nat))

/-- ASCII whitespace stripped by `x.trim()`. -/
def isSpaceJS (c : Char) : Bool := c = ' ' || c = '\t' || c = '\n' || c = '\r'

/-- JS `String.prototype.trim` on a character list. -/
def trimChars (cs : List Char) : List Char :=
  ((cs.dropWhile isSpaceJS).reverse.dropWhile isSpaceJS).reverse

/-- JS `arg.split(',')`: segments between commas, empty segments preserved. -/
def splitOnComma : List Char → List (List Char)
  | [] => [[]]
  | c :: rest =>
    if c = ',' then [] :: splitOnComma rest
    else
      match splitOnComma rest with
      | t :: ts => (c :: t) :: ts
      | [] => [[c]]

/-- Composite `parseInt(x.trim(), 10)` as used for dice faces and user answers. -/
def parseIntJS (cs : List Char) : Option Int := parseIntCore (trimChars cs)

/-- Each die must have 6 faces (`DICE_FACES`). -/
def DICE_FACES : Nat := 6

/-- Parsing and validating one command-line die argument
(`arg.split(',').map(x => parseInt(x.trim(), 10))` followed by the
`faces.length !== DICE_FACES || faces.some(isNaN)` check, dice_game.js lines 15-21). -/
def parseDie (arg : List Char) : Option (List Int) :=
  let faces := (splitOnComma arg).map parseIntJS
  if faces.length = DICE_FACES ∧ faces.all Option.isSome
  then some (faces.filterMap id) else none

/-- Validating every die in turn; the JS loop exits the process at the first bad die. -/
def parseDiceList : List (List Char) → Option (List (List Int))
  | [] => some []
  | arg :: rest =>
    match parseDie arg, parseDiceList rest with
    | some d, some ds => some (d :: ds)
    | _, _ => none

/-- Startup configuration validation (dice_game.js lines 7-22): fewer than 3
arguments is fatal, then each argument must parse as a valid die. -/
def parseConfig (args : List (List Char)) : Option (List (List Int)) :=
  if args.length < 3 then none else parseDiceList args

/-- Operation `Combine`: the exchange result `(secret + counterpartyValue) % max`
(dice_game.js line 61). -/
def combine (secret counterparty max : Nat) : Nat := (secret + counterparty) % max

/-- Validation of one counterparty answer (the `!isNaN(userNum) && userNum >= 0 &&
userNum < max` test, dice_game.js line 56): `some u` iff the parsed input is an
integer in `[0, max)`. -/
def validUserNum (max : Nat) : Option Int → Option Nat
  | none => none
  | some v => if 0 ≤ v ∧ v < (max : Int) then some v.toNat else none

/-- The re-prompt loop of `fairRandom` (dice_game.js lines 53-59) run against an
explicit list of `parseInt` results of successive user lines: returns the first
valid answer, skipping invalid ones. -/
def askLoop (max : Nat) : List (Option Int) → Option Nat
  | [] => none
  | i :: rest =>
    match validUserNum max i with
    | some u => some u
    | none => askLoop max rest

/-- The full re-prompt loop of `fairRandom` (dice_game.js lines 53-59) on the raw
counterparty lines: each line goes through `parseInt(input.trim(), 10)` (line 55)
and then the `!isNaN(userNum) && userNum >= 0 && userNum < max` test (line 56);
the loop settles on the first line whose parsed value passes. -/
def askLoopJS (max : Nat) : List (List Char) → Option Nat
  | [] => none
  | line :: rest =>
    match validUserNum max (parseIntJS line) with
    | some u => some u
    | none => askLoopJS max rest

/-- The external nondeterminism consumed by one `fairRandom` exchange:
the 32 random key bytes, the successive 32-bit draws of `secureRandomInt`,
and the `parseInt` results of the successive counterparty lines. -/
structure ExchangeInput where
  key : List Nat
  draws : List Nat
  inputs : List (Option Int)
deriving Repr, DecidableEq

/-- The single-use commitment record: the secret, the 256-bit key, and the
disclosed digest. -/
structure Commitment where
  secret : Nat
  key : List Nat
  digest : String
deriving Repr, DecidableEq

section Protocol

variable (hmacSha3 : List Nat → String → String)

/-- Function `fairRandom(max, label)` (dice_game.js lines 47-69), parametrised by the
external HMAC-SHA3-256 function `hmacSha3` (Node crypto library code, deterministic).
Produces the commitment (secret, key, digest over the secret's decimal string,
exactly `hmacSha3(key, compNum.toString())`) and the combined result. -/
def fairRandom (max : Nat) (e : ExchangeInput) : Option (Commitment × Nat) :=
  match secureRandomInt max e.draws with
  | none => none
  | some compNum =>
    match askLoop max e.inputs with
    | none => none
    | some userNum =>
      some ({ secret := compNum, key := e.key,
              digest := hmacSha3 e.key (toString compNum) },
            combine compNum userNum max)

/-- The computer-die-selection loop of `main` (dice_game.js lines 173-176):
run a full `fairRandom` exchange; while the result equals the user's die index,
re-run the entire exchange on fresh nondeterminism. -/
def computerDieChoice (n userDie : Nat) : List ExchangeInput → Option Nat
  | [] => none
  | e :: rest =>
    match fairRandom hmacSha3 n e with
    | none => none
    | some (_, r) => if r = userDie then computerDieChoice n userDie rest else some r

end Protocol

/-- Strict wins of `d1` against `d2` over all ordered face pairs
(the `if (a > b) win++` branch of `compareDice`, dice_game.js lines 73-78;
also the `winCount` of `showProbabilities`, lines 98-104). -/
def winCount (d1 d2 : List Int) : Nat :=
  (d1.map (fun a => d2.countP (fun b => decide (b < a)))).sum

/-- Strict losses of `d1` against `d2` (the `else if (a < b) lose++` branch). -/
def loseCount (d1 d2 : List Int) : Nat :=
  (d1.map (fun a => d2.countP (fun b => decide (a < b)))).sum

/-- Function `compareDice(d1, d2)` (dice_game.js lines 71-82): `1` if strict wins exceed
strict losses, `-1` if losses exceed wins, `0` otherwise. -/
def compareDice (d1 d2 : List Int) : Int :=
  if winCount d1 d2 > loseCount d1 d2 then 1
  else if loseCount d1 d2 > winCount d1 d2 then -1
  else 0

/-- The pairwise win percentage shown by `showProbabilities`
(`(winCount / total) * 100` with `total = 36`, dice_game.js lines 104-106),
as an exact rational (the JS code further rounds to one decimal for display). -/
def winPercent (d1 d2 : List Int) : ℚ :=
  (winCount d1 d2 : ℚ) / (DICE_FACES * DICE_FACES : ℚ) * 100

/-- First classic non-transitive die from the spec fixture. -/
def die0 : List Int := [2, 2, 4, 4, 9, 9]

/-- Second classic non-transitive die from the spec fixture. -/
def die1 : List Int := [1, 1, 6, 6, 8, 8]

/-- Third classic non-transitive die from the spec fixture. -/
def die2 : List Int := [3, 3, 5, 5, 7, 7]

/-! Uniformity of the combine step. -/

/-- Adding a fixed offset and reducing mod `max` is injective on `[0, max)`. -/
lemma combine_inj (max c s1 s2 : Nat) (h1 : s1 < max) (h2 : s2 < max)
    (h : combine s1 c max = combine s2 c max) : s1 = s2 := by
  have hm : Nat.ModEq max (s1 + c) (s2 + c) := h
  have hs : s1 % max = s2 % max := hm.add_right_cancel' c
  rwa [Nat.mod_eq_of_lt h1, Nat.mod_eq_of_lt h2] at hs

/-- Every residue is hit from `[0, max)` by the combine map. -/
lemma combine_surj (max c r : Nat) (hc : c < max) (hr : r < max) :
    combine ((r + (max - c)) % max) c max = r := by
  unfold combine
  rw [Nat.mod_add_mod]
  have he : r + (max - c) + c = r + max := by omega
  rw [he, Nat.add_mod_right, Nat.mod_eq_of_lt hr]

/-- C1: for `max ≥ 2` and a fixed counterparty value `c < max`, the map
`secret ↦ combine secret c max` is a bijection of `[0, max)` onto itself, and every
residue `r < max` has exactly one preimage among the `max` possible secrets — so a
uniformly distributed secret yields a uniformly distributed exchange result,
whatever `c` the counterparty chose. -/
theorem combine_uniform (max c : Nat) (hmax : 2 ≤ max) (hc : c < max) :
    Set.BijOn (fun s => combine s c max) (Set.Iio max) (Set.Iio max) ∧
      ∀ r < max,
        ((Finset.range max).filter (fun s => combine s c max = r)).card = 1 := by
  have hpos : 0 < max := by omega
  have hmaps : ∀ s, s < max → combine s c max < max := by
    intro s _
    exact Nat.mod_lt _ hpos
  constructor
  · refine ⟨fun s hs => ?_, fun s1 h1 s2 h2 h => ?_, fun r hr => ?_⟩
    · exact Set.mem_Iio.mpr (hmaps s (Set.mem_Iio.mp hs))
    · exact combine_inj max c s1 s2 (Set.mem_Iio.mp h1) (Set.mem_Iio.mp h2) h
    · refine ⟨(r + (max - c)) % max, Set.mem_Iio.mpr (Nat.mod_lt _ hpos), ?_⟩
      exact combine_surj max c r hc (Set.mem_Iio.mp hr)
  · intro r hr
    rw [Finset.card_eq_one]
    refine ⟨(r + (max - c)) % max, ?_⟩
    rw [Finset.eq_singleton_iff_unique_mem]
    constructor
    · rw [Finset.mem_filter, Finset.mem_range]
      exact ⟨Nat.mod_lt _ hpos, combine_surj max c r hc hr⟩
    · intro s hs
      rw [Finset.mem_filter, Finset.mem_range] at hs
      exact combine_inj max c s _ hs.1 (Nat.mod_lt _ hpos)
        (hs.2.trans (combine_surj max c r hc hr).symm)

/-- C1 witness at `max = 4`, `c = 3`. -/
theorem combine_uniform_witness :
    2 ≤ 4 ∧ 3 < 4 ∧
      (Set.BijOn (fun s => combine s 3 4) (Set.Iio 4) (Set.Iio 4) ∧
        ∀ r < 4,
          ((Finset.range 4).filter (fun s => combine s 3 4 = r)).card = 1) :=
  ⟨by omega, by omega, combine_uniform 4 3 (by omega) (by omega)⟩

/-! Rejection sampling. -/

/-- The residues mod `max` below a multiple `max * k` hit each residue `r < max`
exactly `k` times. -/
lemma card_filter_mod (max k r : Nat) (hpos : 0 < max) (hr : r < max) :
    ((Finset.range (max * k)).filter (fun n => n % max = r)).card = k := by
  have himg : (Finset.range (max * k)).filter (fun n => n % max = r) =
      (Finset.range k).image (fun q => max * q + r) := by
    ext n
    simp only [Finset.mem_filter, Finset.mem_range, Finset.mem_image]
    constructor
    · rintro ⟨hlt, hmod⟩
      refine ⟨n / max, ?_, ?_⟩
      · rw [Nat.div_lt_iff_lt_mul hpos]
        rwa [Nat.mul_comm] at hlt
      · rw [← hmod, Nat.div_add_mod]
    · rintro ⟨q, hq, rfl⟩
      refine ⟨?_, ?_⟩
      · calc max * q + r < max * q + max := by omega
          _ = max * (q + 1) := by ring
          _ ≤ max * k := Nat.mul_le_mul_left _ hq
      · rw [Nat.mul_add_mod, Nat.mod_eq_of_lt hr]
  rw [himg, Finset.card_image_of_injective _ ?_, Finset.card_range]
  intro a b h
  have h' : max * a + r = max * b + r := h
  have h'' : max * a = max * b := by omega
  exact Nat.eq_of_mul_eq_mul_left hpos h''

/-- The acceptance cutoff is the greatest multiple of `max` not exceeding
`0xFFFFFFFF`. -/
lemma cutoff_eq (max : Nat) : cutoff max = max * (UINT32_MAX / max) := by
  have h := Nat.div_add_mod UINT32_MAX max
  unfold cutoff
  omega

/-- Characterisation of one rejection-sampling iteration. -/
lemma secureRandomIntStep_eq_some_iff (max num r : Nat) :
    secureRandomIntStep max num = some r ↔ num < cutoff max ∧ num % max = r := by
  unfold secureRandomIntStep
  by_cases h : num < cutoff max <;> simp [h]

/-- C3: for `2 ≤ max ≤ 2³²`, the sampler accepts a 32-bit draw exactly below a
cutoff that is a multiple of `max` (retrying above it), every accepted draw is
reduced to a value in `[0, max)`, and each residue `r < max` is produced by
exactly `cutoff max / max` of the `2³²` equiprobable 32-bit draws — the returned
secret carries no modulo bias. -/
theorem secureRandomInt_unbiased (max : Nat) (h2 : 2 ≤ max) (_h32 : max ≤ numDraws) :
    max ∣ cutoff max ∧
      (∀ num r, secureRandomIntStep max num = some r → r < max) ∧
      (∀ num, cutoff max ≤ num → secureRandomIntStep max num = none) ∧
      ∀ r < max,
        ((Finset.range numDraws).filter
            (fun num => secureRandomIntStep max num = some r)).card =
          cutoff max / max := by
  have hpos : 0 < max := by omega
  refine ⟨⟨UINT32_MAX / max, cutoff_eq max⟩, ?_, ?_, ?_⟩
  · intro num r h
    rw [secureRandomIntStep_eq_some_iff] at h
    rw [← h.2]
    exact Nat.mod_lt _ hpos
  · intro num h
    unfold secureRandomIntStep
    rw [if_neg (by omega)]
  · intro r hr
    have hcut_le : cutoff max ≤ numDraws := by
      unfold cutoff UINT32_MAX numDraws
      omega
    have hset : (Finset.range numDraws).filter
        (fun num => secureRandomIntStep max num = some r) =
        (Finset.range (max * (UINT32_MAX / max))).filter (fun n => n % max = r) := by
      ext n
      simp only [Finset.mem_filter, Finset.mem_range, secureRandomIntStep_eq_some_iff,
        ← cutoff_eq]
      constructor
      · rintro ⟨hn, hc, hm⟩
        exact ⟨hc, hm⟩
      · rintro ⟨hc, hm⟩
        exact ⟨lt_of_lt_of_le hc hcut_le, hc, hm⟩
    rw [hset, card_filter_mod max _ r hpos hr, cutoff_eq,
      Nat.mul_div_cancel_left _ hpos]

/-- C3 witness at `max = 6`. -/
theorem secureRandomInt_unbiased_witness :
    2 ≤ 6 ∧ 6 ≤ numDraws ∧
      (6 ∣ cutoff 6 ∧
        (∀ num r, secureRandomIntStep 6 num = some r → r < 6) ∧
        (∀ num, cutoff 6 ≤ num → secureRandomIntStep 6 num = none) ∧
        ∀ r < 6,
          ((Finset.range numDraws).filter
              (fun num => secureRandomIntStep 6 num = some r)).card =
            cutoff 6 / 6) :=
  ⟨by omega, by norm_num [numDraws], secureRandomInt_unbiased 6 (by omega) (by norm_num [numDraws])⟩

/-! Comparison algebra. -/

/-- Counting `loseCount` against the empty die is zero. -/
lemma loseCount_nil_right (d2 : List Int) : loseCount d2 [] = 0 := by
  induction d2 with
  | nil => rfl
  | cons c d2 ih =>
    have h : loseCount (c :: d2) [] =
        List.countP (fun x => decide (c < x)) [] + loseCount d2 [] := rfl
    rw [h, ih]
    simp

/-- Counting `loseCount` against a die extended on the left splits off the new head
face's contribution. -/
lemma loseCount_cons_right (d2 : List Int) (a : Int) (t : List Int) :
    loseCount d2 (a :: t) =
      d2.countP (fun b => decide (b < a)) + loseCount d2 t := by
  induction d2 with
  | nil => rfl
  | cons c d2 ih =>
    have h1 : loseCount (c :: d2) (a :: t) =
        List.countP (fun x => decide (c < x)) (a :: t) + loseCount d2 (a :: t) := rfl
    have h2 : loseCount (c :: d2) t =
        List.countP (fun x => decide (c < x)) t + loseCount d2 t := rfl
    rw [h1, h2, ih, List.countP_cons, List.countP_cons]
    omega

/-- Double-counting swap: strict wins of `d1` over `d2` are exactly the strict
losses of `d2` against `d1`. -/
lemma winCount_eq_loseCount_swap (d1 d2 : List Int) :
    winCount d1 d2 = loseCount d2 d1 := by
  induction d1 with
  | nil => rw [loseCount_nil_right]; rfl
  | cons a t ih =>
    have h : winCount (a :: t) d2 =
        d2.countP (fun b => decide (b < a)) + winCount t d2 := rfl
    rw [h, ih, loseCount_cons_right]

/-- C10: the function `compareDice` is antisymmetric — `compareDice(A,B)` is the negation of
`compareDice(B,A)`; `A` wins against `B` (result `1`) iff `B` loses against `A`
(result `-1`), and ties are symmetric. -/
theorem compareDice_antisymm (d1 d2 : List Int) :
    compareDice d1 d2 = -compareDice d2 d1 ∧
      (compareDice d1 d2 = 1 ↔ compareDice d2 d1 = -1) ∧
      (compareDice d1 d2 = 0 ↔ compareDice d2 d1 = 0) := by
  have h12 : winCount d1 d2 = loseCount d2 d1 := winCount_eq_loseCount_swap d1 d2
  have h21 : loseCount d1 d2 = winCount d2 d1 := (winCount_eq_loseCount_swap d2 d1).symm
  unfold compareDice
  rw [h12, h21]
  split_ifs <;> first | decide | (exfalso; omega)

/-- C9: on the classic non-transitive fixture, die0 beats die1, die1 beats die2,
and die2 beats die0 (`compareDice` returns `1` each time), and each pairwise win
percentage exceeds 50%, a non-transitive cycle. -/
theorem nontransitive_fixture :
    compareDice die0 die1 = 1 ∧ compareDice die1 die2 = 1 ∧
      compareDice die2 die0 = 1 ∧
      winPercent die0 die1 > 50 ∧ winPercent die1 die2 > 50 ∧
      winPercent die2 die0 > 50 := by
  have hp : ∀ dA dB : List Int, winCount dA dB = 20 → winPercent dA dB > 50 := by
    intro dA dB h
    simp only [winPercent, DICE_FACES, h]
    norm_num
  exact ⟨by decide, by decide, by decide, hp _ _ (by decide), hp _ _ (by decide),
    hp _ _ (by decide)⟩

/-! The fair-randomness exchange. -/

/-- Unfolding lemma for the sampler on a non-empty draw list. -/
lemma secureRandomInt_cons (max num : Nat) (rest : List Nat) :
    secureRandomInt max (num :: rest) =
      match secureRandomIntStep max num with
      | some r => some r
      | none => secureRandomInt max rest := rfl

/-- Every value the sampler returns is already reduced into `[0, max)`. -/
lemma secureRandomInt_lt (max : Nat) (hpos : 0 < max) :
    ∀ draws v, secureRandomInt max draws = some v → v < max := by
  intro draws
  induction draws with
  | nil => intro v h; exact absurd h (by simp [secureRandomInt])
  | cons num rest ih =>
    intro v h
    rw [secureRandomInt_cons] at h
    cases hstep : secureRandomIntStep max num with
    | none => rw [hstep] at h; exact ih v h
    | some r =>
      rw [hstep] at h
      have hr : r = v := by injection h
      rw [secureRandomIntStep_eq_some_iff] at hstep
      rw [← hr, ← hstep.2]
      exact Nat.mod_lt _ hpos

/-- With bound `0` the sampler accepts nothing (the JS code computes a `NaN`
cutoff, so the rejection test always fails and the loop never returns). -/
lemma secureRandomInt_zero (draws : List Nat) :
    secureRandomInt 0 draws = none := by
  induction draws with
  | nil => rfl
  | cons num rest ih =>
    rw [secureRandomInt_cons]
    have hstep : secureRandomIntStep 0 num = none := by
      unfold secureRandomIntStep cutoff
      rw [Nat.mod_zero, if_neg (by omega)]
    rw [hstep, ih]

/-- Unfolding lemma for the validator on a parsed integer. -/
lemma validUserNum_some_def (max : Nat) (v : Int) :
    validUserNum max (some v) =
      if 0 ≤ v ∧ v < (max : Int) then some v.toNat else none := rfl

/-- A validated answer is the supplied integer, which lies in `[0, max)`. -/
lemma validUserNum_eq_some_iff (max : Nat) (i : Option Int) (u : Nat) :
    validUserNum max i = some u ↔
      ∃ v : Int, i = some v ∧ 0 ≤ v ∧ v < (max : Int) ∧ u = v.toNat := by
  cases i with
  | none => simp [validUserNum]
  | some v =>
    rw [validUserNum_some_def]
    by_cases h : 0 ≤ v ∧ v < (max : Int)
    · rw [if_pos h]
      constructor
      · intro he
        have he' : v.toNat = u := by injection he
        exact ⟨v, rfl, h.1, h.2, he'.symm⟩
      · rintro ⟨w, hw, h0, hm, hu⟩
        have hvw : v = w := by injection hw
        have he : v.toNat = u := by omega
        rw [he]
    · rw [if_neg h]
      constructor
      · intro he
        exact absurd he (by simp)
      · rintro ⟨w, hw, h0, hm, _⟩
        have hvw : v = w := by injection hw
        exact absurd ⟨by omega, by omega⟩ h

/-- An answer is rejected exactly when it is `NaN` or an out-of-range integer. -/
lemma validUserNum_eq_none_iff (max : Nat) (i : Option Int) :
    validUserNum max i = none ↔
      i = none ∨ ∃ v : Int, i = some v ∧ (v < 0 ∨ (max : Int) ≤ v) := by
  cases i with
  | none => simp [validUserNum]
  | some v =>
    rw [validUserNum_some_def]
    by_cases h : 0 ≤ v ∧ v < (max : Int)
    · rw [if_pos h]
      constructor
      · intro he
        exact absurd he (by simp)
      · rintro (he | ⟨w, hw, hcase⟩)
        · exact absurd he (by simp)
        · have hvw : v = w := by injection hw
          obtain ⟨h1, h2⟩ := h
          exact absurd hcase (by omega)
    · rw [if_neg h]
      constructor
      · intro _
        exact Or.inr ⟨v, rfl, by omega⟩
      · intro _
        rfl

/-- The answer the re-prompt loop settles on is a validated integer in `[0, max)`
that appears among the supplied answers. -/
lemma askLoop_sound (max : Nat) :
    ∀ inputs u, askLoop max inputs = some u →
      u < max ∧ ∃ v : Int, 0 ≤ v ∧ v < (max : Int) ∧ u = v.toNat ∧ some v ∈ inputs := by
  intro inputs
  induction inputs with
  | nil => intro u h; exact absurd h (by simp [askLoop])
  | cons i rest ih =>
    intro u h
    have hcons : askLoop max (i :: rest) =
        match validUserNum max i with
        | some w => some w
        | none => askLoop max rest := rfl
    rw [hcons] at h
    cases hv : validUserNum max i with
    | some w =>
      rw [hv] at h
      have hw : w = u := by injection h
      rw [validUserNum_eq_some_iff] at hv
      obtain ⟨v, hi, hv0, hvm, hu⟩ := hv
      exact ⟨by omega, v, hv0, hvm, by omega, by rw [hi]; exact List.mem_cons_self _ _⟩
    | none =>
      rw [hv] at h
      obtain ⟨hu, v, hv0, hvm, he, hmem⟩ := ih u h
      exact ⟨hu, v, hv0, hvm, he, List.mem_cons_of_mem i hmem⟩

/-- Full characterisation of a successful `fairRandom` exchange: the secret comes
from the rejection sampler, the counterparty value from the validation loop, the
commitment carries the key and the HMAC of the secret's decimal string, and the
result is their combination mod `max`. -/
lemma fairRandom_eq_some_iff (hmacSha3 : List Nat → String → String) (max : Nat)
    (e : ExchangeInput) (com : Commitment) (r : Nat) :
    fairRandom hmacSha3 max e = some (com, r) ↔
      ∃ compNum u, secureRandomInt max e.draws = some compNum ∧
        askLoop max e.inputs = some u ∧
        com = ⟨compNum, e.key, hmacSha3 e.key (toString compNum)⟩ ∧
        r = combine compNum u max := by
  unfold fairRandom
  cases hs : secureRandomInt max e.draws with
  | none => simp
  | some compNum =>
    cases ha : askLoop max e.inputs with
    | none => simp
    | some u =>
      simp only [Option.some.injEq, Prod.mk.injEq]
      constructor
      · rintro ⟨hcom, hr⟩
        exact ⟨compNum, u, rfl, rfl, hcom.symm, hr.symm⟩
      · rintro ⟨c, u', rfl, rfl, hcom, hr⟩
        rw [hcom, hr]
        exact ⟨rfl, rfl⟩

/-- C2: a completed exchange returns exactly `(secret + counterpartyValue) % max`,
where the committed secret is in `[0, max)` and the counterparty value is the
validated integer in `[0, max)`; the result itself lies in `[0, max)`. -/
theorem fairRandom_result_formula (hmacSha3 : List Nat → String → String)
    (max : Nat) (e : ExchangeInput) (com : Commitment) (r : Nat) (hmax : 2 ≤ max)
    (h : fairRandom hmacSha3 max e = some (com, r)) :
    com.secret < max ∧
      ∃ u, askLoop max e.inputs = some u ∧ u < max ∧
        r = (com.secret + u) % max ∧ r < max := by
  rw [fairRandom_eq_some_iff] at h
  obtain ⟨compNum, u, hs, ha, hcom, hr⟩ := h
  have hpos : 0 < max := by omega
  have hlt : compNum < max := secureRandomInt_lt max hpos e.draws compNum hs
  have hu : u < max := (askLoop_sound max e.inputs u ha).1
  rw [hcom, hr]
  exact ⟨hlt, u, ha, hu, rfl, Nat.mod_lt _ hpos⟩

/-- C2 witness: a concrete exchange with `max = 6`, draw `7`, answer `2`. -/
theorem fairRandom_result_formula_witness :
    2 ≤ 6 ∧
      fairRandom (fun _ _ => "d") 6 ⟨[1], [7], [some 2]⟩ =
        some (⟨1, [1], "d"⟩, 3) ∧
      (Commitment.secret ⟨1, [1], "d"⟩ < 6 ∧
        ∃ u, askLoop 6 [some 2] = some u ∧ u < 6 ∧
          3 = (Commitment.secret ⟨1, [1], "d"⟩ + u) % 6 ∧ 3 < 6) :=
  ⟨by omega, by rfl,
    fairRandom_result_formula (fun _ _ => "d") 6 ⟨[1], [7], [some 2]⟩
      ⟨1, [1], "d"⟩ 3 (by omega) (by rfl)⟩

/-- C4: the disclosed digest of a completed exchange is exactly the HMAC of the
secret's base-10 decimal string under the commitment's key, so recomputing
`hmacSha3 key (decimalStringOf secret)` from the revealed values always
reproduces the originally disclosed digest. -/
theorem fairRandom_commitment_binding (hmacSha3 : List Nat → String → String)
    (max : Nat) (e : ExchangeInput) (com : Commitment) (r : Nat)
    (h : fairRandom hmacSha3 max e = some (com, r)) :
    com.key = e.key ∧ com.digest = hmacSha3 com.key (toString com.secret) := by
  rw [fairRandom_eq_some_iff] at h
  obtain ⟨compNum, u, _, _, hcom, _⟩ := h
  rw [hcom]
  exact ⟨rfl, rfl⟩

/-- C4 witness: recomputing the digest of a concrete exchange. -/
theorem fairRandom_commitment_binding_witness :
    fairRandom (fun _ m => String.append m "!") 6 ⟨[9], [13], [some 1]⟩ =
        some (⟨1, [9], "1!"⟩, 2) ∧
      (Commitment.key ⟨1, [9], "1!"⟩ = [9] ∧
        Commitment.digest ⟨1, [9], "1!"⟩ =
          (fun _ m => String.append m "!") (Commitment.key ⟨1, [9], "1!"⟩)
            (toString (Commitment.secret ⟨1, [9], "1!"⟩))) :=
  ⟨by rfl,
    fairRandom_commitment_binding (fun _ m => String.append m "!") 6
      ⟨[9], [13], [some 1]⟩ ⟨1, [9], "1!"⟩ 2 (by rfl)⟩

/-- Unfolding lemma for the computer-die-selection loop. -/
lemma computerDieChoice_cons (hmacSha3 : List Nat → String → String)
    (n userDie : Nat) (e : ExchangeInput) (rest : List ExchangeInput) :
    computerDieChoice hmacSha3 n userDie (e :: rest) =
      match fairRandom hmacSha3 n e with
      | none => none
      | some (_, r) =>
        if r = userDie then computerDieChoice hmacSha3 n userDie rest
        else some r := rfl

/-- C5: when the die-selection exchange collides with the user's die the caller
re-runs the entire `fairRandom` exchange on entirely fresh nondeterminism (the
next `ExchangeInput`: fresh key, fresh draws, fresh counterparty answers), and
the computer die index finally used is always in `[0, n)` and differs from the
user's index. -/
theorem computerDieChoice_spec (hmacSha3 : List Nat → String → String)
    (n userDie : Nat) (hn : 0 < n) :
    (∀ es c, computerDieChoice hmacSha3 n userDie es = some c →
        c < n ∧ c ≠ userDie) ∧
      ∀ e rest com, fairRandom hmacSha3 n e = some (com, userDie) →
        computerDieChoice hmacSha3 n userDie (e :: rest) =
          computerDieChoice hmacSha3 n userDie rest := by
  constructor
  · intro es
    induction es with
    | nil => intro c h; exact absurd h (by simp [computerDieChoice])
    | cons e rest ih =>
      intro c h
      rw [computerDieChoice_cons] at h
      cases hf : fairRandom hmacSha3 n e with
      | none =>
        rw [hf] at h
        have h' : (none : Option Nat) = some c := h
        exact absurd h' (by simp)
      | some p =>
        obtain ⟨com, r⟩ := p
        rw [hf] at h
        have h' : (if r = userDie then computerDieChoice hmacSha3 n userDie rest
            else some r) = some c := h
        by_cases hcol : r = userDie
        · rw [if_pos hcol] at h'
          exact ih c h'
        · rw [if_neg hcol] at h'
          have hc : r = c := by injection h'
          rw [fairRandom_eq_some_iff] at hf
          obtain ⟨compNum, u, _, _, _, hr⟩ := hf
          refine ⟨?_, by omega⟩
          rw [← hc, hr]
          exact Nat.mod_lt _ hn
  · intro e rest com hf
    rw [computerDieChoice_cons, hf]
    exact if_pos rfl

/-- C5 witness: with 3 dice and user die `1`, a first exchange yielding `1`
collides and is discarded whole; the second exchange yields `2`, which is in
range and distinct from the user's die. -/
theorem computerDieChoice_spec_witness :
    ((2 : Nat) < 3 ∧ (2 : Nat) ≠ 1) ∧
      computerDieChoice (fun _ _ => "d") 3 1
          [⟨[5], [1], [some 0]⟩, ⟨[8], [2], [some 0]⟩] =
        computerDieChoice (fun _ _ => "d") 3 1 [⟨[8], [2], [some 0]⟩] :=
  ⟨(computerDieChoice_spec (fun _ _ => "d") 3 1 (by omega)).1
      [⟨[5], [1], [some 0]⟩, ⟨[8], [2], [some 0]⟩] 2 (by rfl),
    (computerDieChoice_spec (fun _ _ => "d") 3 1 (by omega)).2
      ⟨[5], [1], [some 0]⟩ [⟨[8], [2], [some 0]⟩] ⟨1, [5], "d"⟩ (by rfl)⟩

/-- C7: the re-prompt loop at concrete inputs. An out-of-range line (`9`, `-1`)
and a non-numeric line (`abc`) are rejected and re-prompted, the value the loop
settles on is in `[0, max)`, a sequence with no valid line never settles, and
retries leave the pending commitment (secret, key, digest) unchanged — two
exchanges sharing key and draws but different answer sequences (one containing a
rejected answer) reveal identical commitments. But the claimed "input that is
not an integer is rejected and re-prompted" fails: `parseInt` truncates, so the
non-integer line `2.9` is accepted immediately as `2` — no re-prompt, and the
value combined is the silent truncation of an invalid input. -/
theorem askLoop_accepts_noninteger_input :
    askLoopJS 6 ["2.9".toList] = some 2 ∧
      askLoopJS 6 ["9".toList, "-1".toList, "abc".toList, "4".toList] = some 4 ∧
      askLoopJS 6 ["7".toList] = none ∧
      askLoopJS 2 [" 1 ".toList] = some 1 ∧
      fairRandom (fun _ _ => "d") 6 ⟨[1], [7], [some 9, some 4]⟩ =
        some (⟨1, [1], "d"⟩, 5) ∧
      fairRandom (fun _ _ => "d") 6 ⟨[1], [7], [some 2]⟩ =
        some (⟨1, [1], "d"⟩, 3) := by
  refine ⟨by decide, by decide, by decide, by decide, by decide, by decide⟩

/-- C8 counterexample: `fairRandom` performs no validation of `max`; with
`max = 1` (not `≥ 2`) the exchange succeeds, producing a commitment and the
result `0` instead of failing. -/
theorem fairRandom_accepts_max_one :
    fairRandom (fun _ _ => "d") 1 ⟨[0], [0], [some 0]⟩ =
      some (⟨0, [0], "d"⟩, 0) := by rfl

/-- C8 amended: the code never rejects `max < 2`. With `max = 1` an exchange
can complete, and whenever it does the secret and result are both `0`; only
`max = 0` can never produce a secret or a result (every draw is rejected). -/
theorem fairRandom_small_max (hmacSha3 : List Nat → String → String)
    (e : ExchangeInput) (com : Commitment) (r : Nat) :
    (fairRandom hmacSha3 1 e = some (com, r) → r = 0 ∧ com.secret = 0) ∧
      fairRandom hmacSha3 0 e = none := by
  constructor
  · intro h
    rw [fairRandom_eq_some_iff] at h
    obtain ⟨compNum, u, hs, _, hcom, hr⟩ := h
    have hlt : compNum < 1 := secureRandomInt_lt 1 (by omega) e.draws compNum hs
    rw [hcom, hr]
    unfold combine
    rw [Nat.mod_one]
    exact ⟨rfl, show compNum = 0 by omega⟩
  · unfold fairRandom
    rw [secureRandomInt_zero]

/-- C8 amended witness: the concrete `max = 1` exchange of the counterexample,
and a `max = 0` exchange that yields nothing. -/
theorem fairRandom_small_max_witness :
    ((0 : Nat) = 0 ∧ Commitment.secret ⟨0, [0], "d"⟩ = 0) ∧
      fairRandom (fun _ _ => "d") 0 ⟨[0], [0], [some 0]⟩ = none :=
  ⟨(fairRandom_small_max (fun _ _ => "d") ⟨[0], [0], [some 0]⟩
       ⟨0, [0], "d"⟩ 0).1 (by rfl),
    (fairRandom_small_max (fun _ _ => "d") ⟨[0], [0], [some 0]⟩
       ⟨0, [0], "d"⟩ 0).2⟩

/-! Startup configuration validation. -/

/-- C6: startup validation at concrete inputs. Two dice, a die with five faces,
and a die with a non-numeric face token are all rejected; negative, zero, and
large faces are accepted. But the claimed "some face token is not an integer ⇒
ConfigurationError" fails: `parseInt` truncates, so the non-integer token `3.7`
is silently accepted as face value `3` and the configuration is admitted. -/
theorem parseConfig_accepts_noninteger_token :
    parseConfig ["3.7,1,1,1,1,1".toList, "1,1,1,1,1,1".toList,
        "1,1,1,1,1,1".toList] =
      some [[3, 1, 1, 1, 1, 1], [1, 1, 1, 1, 1, 1], [1, 1, 1, 1, 1, 1]] ∧
      parseConfig ["1,1,1,1,1,1".toList, "1,1,1,1,1,1".toList] = none ∧
      parseConfig ["1,1,1,1,1".toList, "1,1,1,1,1,1".toList,
        "1,1,1,1,1,1".toList] = none ∧
      parseConfig ["abc,1,1,1,1,1".toList, "1,1,1,1,1,1".toList,
        "1,1,1,1,1,1".toList] = none ∧
      parseConfig ["-5,0,99999999999999999999,1,2,3".toList,
        "1,1,1,1,1,1".toList, "2,2,2,2,2,2".toList] =
        some [[-5, 0, 99999999999999999999, 1, 2, 3],
          [1, 1, 1, 1, 1, 1], [2, 2, 2, 2, 2, 2]] := by
  refine ⟨by decide, by decide, by decide, by decide, by decide⟩

end DiceGame
